import Mathlib

/-!
Verification of the rule-matching core of `realtime-mempool-alerts-ts`
(`src/mempool_alerts.ts`).

Modelling conventions (shallow embedding):
* JS strings are Lean `String`; `slice(0, n)` is `strTake`, `toLowerCase()`
  is `strLower` (per-character `Char.toLower`, which agrees with JS on the
  ASCII hex/address strings this program manipulates).
* `bigint` wei amounts are `Nat` (the chain guarantees non-negative values).
* The JS `number` produced by `weiToEth` is modelled as an exact rational
  (`ℚ`): `Number(wei) / 1e18` becomes `mkRat wei (10 ^ 18)`.  At the
  magnitudes compared by the rules the floating-point and exact results
  order identically.  For the conversion itself, `weiToEthB64` additionally
  models the full IEEE-754 binary64 semantics (round to nearest, ties to
  even, subnormals, overflow to `+∞`) explicitly over `ℚ`.
* Optional fields (`tx.«to»`, `tx.data`, `rules.minEth`, ...) are `Option`;
  the JS `??` defaults are written with `Option.getD` at each use site,
  exactly where the source applies them.
* JS truthiness in `if (rules.minEth && ...)` means an unset or zero
  threshold disables the check; this is the `m ≠ 0` guard below.
* Template strings such as `value<${rules.minEth}` render the threshold
  with `ratToDec`, which produces the terminating decimal expansion
  (`0.5` renders as "0.5", matching JS `Number` to-string for the
  short decimal thresholds used by the rules).
-/

/-- Model of JS `s.slice(0, n)` for `0 ≤ n`: the first `n` characters. -/
def strTake (s : String) (n : Nat) : String := ⟨s.data.take n⟩

/-- Model of JS `s.toLowerCase()` on ASCII strings. -/
def strLower (s : String) : String := ⟨s.data.map Char.toLower⟩

/-- Decimal digits of `rem / den` (long division), `fuel` bounds the length. -/
def decDigits : Nat → Nat → Nat → List Char
  | 0, _, _ => []
  | _ + 1, 0, _ => []
  | fuel + 1, rem, den =>
      Nat.digitChar (rem * 10 / den) :: decDigits fuel (rem * 10 % den) den

/-- Decimal rendering of a non-negative rational, used to model the JS
template-string interpolation `${rules.minEth}`.  For thresholds with a
short terminating decimal expansion (such as `0.5`) this coincides with
JS number-to-string. -/
def ratToDec (q : ℚ) : String :=
  let n := q.num.toNat
  let ip := n / q.den
  let rem := n % q.den
  if rem = 0 then toString ip
  else toString ip ++ "." ++ String.mk (decDigits 32 rem q.den)

/-- The fields of an ethers `TransactionResponse` that the program reads.
`value`, `data`, `to` and `from` are optional because the source defaults
each of them (`?? 0n`, `?? "0x"`, `?? ""`). -/
structure Tx where
  value : Option Nat
  data : Option String
  «to» : Option String
  «from» : Option String
  hash : String
  nonce : Nat
deriving DecidableEq

/-- The `Rule` type of the source (lines 9–14): every category optional. -/
structure Rule where
  minEth : Option ℚ
  allowSelectors : Option (List String)
  denySelectors : Option (List String)
  watchRecipients : Option (List String)
deriving DecidableEq

/-- The `RULES` constant of the source (lines 16–21). -/
def RULES : Rule :=
  { minEth := some (mkRat 1 2)
    allowSelectors := some []
    denySelectors := some ["0x095ea7b3"]
    watchRecipients := some [] }

/-- `selectorOf` (source lines 24–27): sentinel for missing/short data,
otherwise the lowercased first 10 characters.  `!input` is JS string
truthiness, i.e. the empty-string test. -/
def selectorOf (input : String) : String :=
  if input = "" ∨ input.length < 10 then "0x00000000"
  else strLower (strTake input 10)

/-- `weiToEth` (source lines 29–31): `Number(wei) / 1e18`, modelled as the
exact rational `wei / 10 ^ 18`. -/
def weiToEth (wei : Nat) : ℚ := mkRat wei (10 ^ 18)

/-- The verdict record `{ok, reason}` returned by `matchRules`. -/
structure Verdict where
  ok : Bool
  reason : List String
deriving DecidableEq

/-- Check 1 (source line 38): `rules.minEth && eth < rules.minEth`.
JS truthiness makes a zero threshold a no-op, hence the `m ≠ 0` guard. -/
def chkMinEth (tx : Tx) (rules : Rule) : Option String :=
  match rules.minEth with
  | some m =>
      if m ≠ 0 ∧ weiToEth (tx.value.getD 0) < m
      then some ("value<" ++ ratToDec m) else none
  | none => none

/-- Check 2 (source line 39): non-empty allow list must contain the selector. -/
def chkAllow (tx : Tx) (rules : Rule) : Option String :=
  match rules.allowSelectors with
  | some l =>
      if l ≠ [] ∧ selectorOf (tx.data.getD "0x") ∉ l
      then some ("!allowed:" ++ selectorOf (tx.data.getD "0x")) else none
  | none => none

/-- Check 3 (source line 40): deny list must not contain the selector
(no `.length` truthiness test in the source here). -/
def chkDeny (tx : Tx) (rules : Rule) : Option String :=
  match rules.denySelectors with
  | some l =>
      if selectorOf (tx.data.getD "0x") ∈ l
      then some ("denied:" ++ selectorOf (tx.data.getD "0x")) else none
  | none => none

/-- Check 4 (source line 41): non-empty watch list must contain the
lowercased recipient (`(tx.«to» ?? "").toLowerCase()`). -/
def chkWatch (tx : Tx) (rules : Rule) : Option String :=
  match rules.watchRecipients with
  | some l =>
      if l ≠ [] ∧ strLower (tx.«to».getD "") ∉ l
      then some "!watched:to" else none
  | none => none

/-- `matchRules` (source lines 33–44).  The source pushes the reason of
each check, in order, onto `reasons`; pushing an optional reason is
appending `Option.toList`.  `ok` is `reasons.length === 0`. -/
def matchRules (tx : Tx) (rules : Rule) : Verdict :=
  let reasons : List String :=
    (chkMinEth tx rules).toList ++ (chkAllow tx rules).toList
      ++ (chkDeny tx rules).toList ++ (chkWatch tx rules).toList
  { ok := reasons.length == 0, reason := reasons }

/-- Running a list of checks in some order: collect the reasons the
checks produce, accept iff none fired.  Used to state order-independence
of the final verdict. -/
def runChecks (cs : List (Option String)) : Verdict :=
  let reasons := cs.reduceOption
  { ok := reasons.length == 0, reason := reasons }

/-- The alert record built on acceptance (source lines 60–69). -/
structure Alert where
  type : String
  hash : String
  «from» : String
  «to» : String
  eth : ℚ
  selector : String
  nonce : Nat
  ts : Nat
deriving DecidableEq

/-- The JSON keys of the emitted alert object, in the insertion order of
the object literal at source lines 60–69 (`JSON.stringify` preserves it). -/
def alertKeys : List String :=
  ["type", "hash", "from", "to", "eth", "selector", "nonce", "ts"]

/-- Construction of the alert record (source lines 60–69); `nowMs` is the
value of `Date.now()` in milliseconds, `ts` is `Math.floor(nowMs / 1000)`. -/
def buildAlert (tx : Tx) (nowMs : Nat) : Alert :=
  { type := "mempool_alert"
    hash := tx.hash
    «from» := strLower (tx.«from».getD "")
    «to» := strLower (tx.«to».getD "")
    eth := weiToEth (tx.value.getD 0)
    selector := selectorOf (tx.data.getD "0x")
    nonce := tx.nonce
    ts := nowMs / 1000 }

/-- The per-transaction handler body (source lines 57–70): emit the alert
exactly when the verdict accepts, otherwise produce nothing. -/
def emitAlert (tx : Tx) (rules : Rule) (nowMs : Nat) : Option Alert :=
  if (matchRules tx rules).ok then some (buildAlert tx nowMs) else none

/-- The rule set of the spec scenarios for C6/C7:
`{minValue: 0.5, denySelectors: ["0x095ea7b3"]}`, other categories unset. -/
def denyHalfRules : Rule :=
  { minEth := some (mkRat 1 2)
    allowSelectors := none
    denySelectors := some ["0x095ea7b3"]
    watchRecipients := none }

/-- The rule set of the spec scenario for C8: `{watchRecipients: ["0xaaa"]}`. -/
def watchAaaRules : Rule :=
  { minEth := none, allowSelectors := none
    denySelectors := none, watchRecipients := some ["0xaaa"] }

/-- The empty rule set `{}` of the spec scenario for C5. -/
def emptyRules : Rule :=
  { minEth := none, allowSelectors := none
    denySelectors := none, watchRecipients := none }

/-- Concrete transaction of the C6 scenario. -/
def txApprove : Tx :=
  { value := some 2000000000000000000, data := some "0x095ea7b300"
    «to» := some "0xabc", «from» := some "0xdef", hash := "0x1", nonce := 5 }

/-- Concrete transaction of the C7 scenario. -/
def txSmall : Tx :=
  { value := some 100000000000000000, data := some "0x"
    «to» := some "0xabc", «from» := some "0xdef", hash := "0x2", nonce := 6 }

/-- Concrete transaction of the C8 scenario. -/
def txToBBB : Tx :=
  { value := some 0, data := none
    «to» := some "0xBBB", «from» := none, hash := "0x3", nonce := 0 }

/-- A plain value transfer with no recipient, for witnesses. -/
def txPlain : Tx :=
  { value := some 1, data := none
    «to» := none, «from» := none, hash := "0x4", nonce := 1 }

/-- Result of an IEEE-754 binary64 computation on the values this program
handles: a finite double (a representable dyadic rational) or `+∞`.
`NaN` cannot arise here (non-negative dividend, positive finite divisor). -/
inductive B64 where
  | inf : B64
  | fin : ℚ → B64
deriving DecidableEq

/-- Order on binary64 results, with `+∞` greatest (the IEEE ordering on
the non-`NaN` values that occur here). -/
def B64.le : B64 → B64 → Prop
  | _, .inf => True
  | .inf, .fin _ => False
  | .fin a, .fin b => a ≤ b

instance : LE B64 := ⟨B64.le⟩

/-- Round to the nearest integer, ties to even: the integer-granularity
core of IEEE-754 `roundTiesToEven`. -/
def roundIntNE (x : ℚ) : ℤ :=
  if Int.fract x < 1 / 2 then ⌊x⌋
  else if 1 / 2 < Int.fract x then ⌊x⌋ + 1
  else if Even ⌊x⌋ then ⌊x⌋ else ⌊x⌋ + 1

/-- Floor of the base-2 logarithm of a positive rational, computed from
`Nat.log2` of the numerator and the denominator. -/
def elog (q : ℚ) : ℤ :=
  let a := Nat.log2 q.num.toNat
  let b := Nat.log2 q.den
  if q.den * 2 ^ a ≤ q.num.toNat * 2 ^ b then (a : ℤ) - b else (a : ℤ) - b - 1

/-- The smallest positive normal binary64 value, `2 ^ (-1022)`. -/
def minNormal : ℚ := (2 : ℚ) ^ (-1022 : ℤ)

/-- Exponent of the binary64 quantum (unit in the last place) of a
non-negative value: below `minNormal` the subnormal quantum is fixed at
`2 ^ (-1074)`; a normal value in `[2 ^ e, 2 ^ (e + 1))` has quantum
`2 ^ (e - 52)` (53-bit significand). -/
def quantum (q : ℚ) : ℤ :=
  if q < minNormal then -1074 else elog q - 52

/-- Binary64 round-to-nearest (ties to even) of a non-negative rational,
with the exponent range unbounded above: snap to the nearest multiple of
the quantum.  A tie between consecutive multiples goes to the even one,
which is exactly the even-significand rule of IEEE-754. -/
def roundFin (q : ℚ) : ℚ :=
  (roundIntNE (q / (2 : ℚ) ^ quantum q) : ℚ) * (2 : ℚ) ^ quantum q

/-- Everything at or above this threshold rounds to `+∞` in binary64: it
is the midpoint between the largest finite double `2 ^ 1024 - 2 ^ 971`
and `2 ^ 1024`, and the midpoint itself ties to the even candidate
`2 ^ 1024`, i.e. overflows. -/
def ovfThreshold : ℚ := 2 ^ 1024 - 2 ^ 970

/-- IEEE-754 binary64 rounding (`roundTiesToEven`) of a non-negative
rational, with overflow to `+∞`. -/
def roundB64 (q : ℚ) : B64 :=
  if ovfThreshold ≤ q then .inf else .fin (roundFin q)

/-- Binary64 division of a non-negative value by a positive, exactly
representable finite divisor: correctly rounded on finite operands, and
`+∞ / c = +∞`. -/
def b64Div (x : B64) (c : ℚ) : B64 :=
  match x with
  | .inf => .inf
  | .fin v => roundB64 (v / c)

/-- IEEE-754 binary64 model of `weiToEth` (source lines 29–31):
`Number(wei)` rounds the integer to the nearest double (ties to even,
overflow to `+∞`), then `/ 1e18` is correctly rounded division by the
double literal `1e18`, which is exactly `10 ^ 18`
(lemma `roundB64_e18`). -/
def weiToEthB64 (wei : Nat) : B64 := b64Div (roundB64 (wei : ℚ)) (10 ^ 18)


example : weiToEth 2000000000000000000 = 2 := by decide
example : weiToEth 100000000000000000 < mkRat 1 2 := by decide
example : ratToDec (mkRat 1 2) = "0.5" := by decide
example : strLower "0xBBB" = "0xbbb" := by decide
example : selectorOf "0x095ea7b300" = "0x095ea7b3" := by decide
example : selectorOf "0x" = "0x00000000" := by decide
example : matchRules txApprove denyHalfRules
    = { ok := false, reason := ["denied:0x095ea7b3"] } := by decide
example : matchRules txSmall denyHalfRules
    = { ok := false, reason := ["value<0.5"] } := by decide
example : matchRules txToBBB watchAaaRules
    = { ok := false, reason := ["!watched:to"] } := by decide
example : matchRules txPlain emptyRules = { ok := true, reason := [] } := by decide
example : emitAlert txPlain emptyRules 1700000000123
    = some (buildAlert txPlain 1700000000123) := rfl

lemma reduceOption_four (a b c d : Option String) :
    ([a, b, c, d] : List (Option String)).reduceOption
      = a.toList ++ b.toList ++ c.toList ++ d.toList := by
  cases a <;> cases b <;> cases c <;> cases d <;> rfl

lemma strTake_length (s : String) (n : Nat) :
    (strTake s n).length = min n s.length := List.length_take n s.data

lemma matchRules_reason (tx : Tx) (rules : Rule) :
    (matchRules tx rules).reason
      = (chkMinEth tx rules).toList ++ (chkAllow tx rules).toList
          ++ (chkDeny tx rules).toList ++ (chkWatch tx rules).toList := rfl

lemma matchRules_ok (tx : Tx) (rules : Rule) :
    (matchRules tx rules).ok = ((matchRules tx rules).reason.length == 0) := rfl

/-- Claim C1: `matchRules` evaluates all four checks (minimum value,
allow-selector membership, deny-selector membership, watched recipient)
without short-circuiting, appending rejection reasons in exactly that
order, and the final accept/reject outcome is unchanged under any
reordering of the four checks. -/
theorem matchRules_checks_order_and_outcome (tx : Tx) (rules : Rule) :
    (matchRules tx rules).reason
      = ([chkMinEth tx rules, chkAllow tx rules, chkDeny tx rules,
          chkWatch tx rules] : List (Option String)).reduceOption
    ∧ ∀ cs : List (Option String),
        cs.Perm [chkMinEth tx rules, chkAllow tx rules, chkDeny tx rules,
                 chkWatch tx rules] →
        (runChecks cs).ok = (matchRules tx rules).ok := by
  constructor
  · rw [reduceOption_four]; rfl
  · intro cs h
    have hperm : cs.reduceOption.Perm
        ([chkMinEth tx rules, chkAllow tx rules, chkDeny tx rules,
          chkWatch tx rules] : List (Option String)).reduceOption :=
      h.filterMap id
    have hlen := hperm.length_eq
    rw [matchRules_ok, matchRules_reason, ← reduceOption_four]
    show (cs.reduceOption.length == 0) = _
    rw [hlen]

/-- Claim C1 witness: reversing the order of the four checks leaves the
verdict of the concrete C6-scenario transaction unchanged. -/
theorem matchRules_checks_order_and_outcome_witness :
    (runChecks [chkWatch txApprove RULES, chkDeny txApprove RULES,
                chkAllow txApprove RULES, chkMinEth txApprove RULES]).ok
      = (matchRules txApprove RULES).ok :=
  (matchRules_checks_order_and_outcome txApprove RULES).2 _ (by decide)

/-- Claim C2: selector extraction returns the sentinel `0x00000000` when
the data string is absent (the caller defaults it to `"0x"`), empty, or
shorter than 10 characters; for data of length at least 10 it returns the
first 10 characters lowercased. -/
theorem selectorOf_spec :
    selectorOf ((none : Option String).getD "0x") = "0x00000000"
    ∧ ∀ s : String,
        (s.length < 10 → selectorOf s = "0x00000000")
        ∧ (10 ≤ s.length → selectorOf s = strLower (strTake s 10)) := by
  refine ⟨by decide, fun s => ⟨?_, ?_⟩⟩
  · intro h
    rw [selectorOf, if_pos (Or.inr h)]
  · intro h
    rw [selectorOf, if_neg]
    rintro (he | hl)
    · rw [he] at h; exact absurd h (by decide)
    · omega

/-- Claim C2 witness: a mixed-case 11-character data string keeps its first
10 characters lowercased; a 3-character data string yields the sentinel. -/
theorem selectorOf_spec_witness :
    selectorOf "0x095EA7B3ff" = strLower (strTake "0x095EA7B3ff" 10)
    ∧ selectorOf "0x1" = "0x00000000"
    ∧ strLower (strTake "0x095EA7B3ff" 10) = "0x095ea7b3" :=
  ⟨(selectorOf_spec.2 "0x095EA7B3ff").2 (by decide),
   (selectorOf_spec.2 "0x1").1 (by decide), by decide⟩

/-- Claim C4: the verdict accepts exactly when its reasons list is empty. -/
theorem matchRules_ok_iff_no_reasons (tx : Tx) (rules : Rule) :
    (matchRules tx rules).ok = true ↔ (matchRules tx rules).reason = [] := by
  rw [matchRules_ok]
  simp [List.length_eq_zero]

/-- Claim C5: with every rule category unset or empty, every transaction is
accepted with an empty reasons list. -/
theorem matchRules_empty_rules_accepts (tx : Tx) (rules : Rule)
    (h1 : rules.minEth = none)
    (h2 : rules.allowSelectors = none ∨ rules.allowSelectors = some [])
    (h3 : rules.denySelectors = none ∨ rules.denySelectors = some [])
    (h4 : rules.watchRecipients = none ∨ rules.watchRecipients = some []) :
    matchRules tx rules = { ok := true, reason := [] } := by
  rcases h2 with h2 | h2 <;> rcases h3 with h3 | h3 <;> rcases h4 with h4 | h4 <;>
    simp [matchRules, chkMinEth, chkAllow, chkDeny, chkWatch, h1, h2, h3, h4]

/-- Claim C5 witness: the empty rule set accepts a concrete plain transfer. -/
theorem matchRules_empty_rules_accepts_witness :
    matchRules txPlain emptyRules = { ok := true, reason := [] } :=
  matchRules_empty_rules_accepts txPlain emptyRules rfl (Or.inl rfl)
    (Or.inl rfl) (Or.inl rfl)

/-- Claim C6: with rules `{minValue: 0.5, denySelectors: ["0x095ea7b3"]}`,
any transaction of value `2 * 10 ^ 18` wei whose data begins with
`0x095ea7b3` is rejected with a `denied:0x095ea7b3` reason and without a
value-threshold reason (2.0 ETH is at least 0.5). -/
theorem matchRules_deny_scenario (tx : Tx) (d : String)
    (hv : tx.value = some 2000000000000000000)
    (hd : tx.data = some d)
    (hpre : strTake d 10 = "0x095ea7b3") :
    (matchRules tx denyHalfRules).ok = false
    ∧ "denied:0x095ea7b3" ∈ (matchRules tx denyHalfRules).reason
    ∧ "value<0.5" ∉ (matchRules tx denyHalfRules).reason := by
  have hlen : 10 ≤ d.length := by
    have h10 := congrArg String.length hpre
    rw [strTake_length] at h10
    have : ("0x095ea7b3" : String).length = 10 := by decide
    omega
  have hsel : selectorOf d = "0x095ea7b3" := by
    rw [selectorOf, if_neg, hpre]
    · decide
    · rintro (he | hl)
      · rw [he] at hlen; exact absurd hlen (by decide)
      · omega
  have h1 : chkMinEth tx denyHalfRules = none := by
    simp only [chkMinEth, denyHalfRules, hv]; decide
  have h2 : chkAllow tx denyHalfRules = none := rfl
  have h3 : chkDeny tx denyHalfRules = some "denied:0x095ea7b3" := by
    simp only [chkDeny, denyHalfRules, hd, Option.getD_some, hsel]; decide
  have h4 : chkWatch tx denyHalfRules = none := rfl
  rw [matchRules_ok, matchRules_reason, h1, h2, h3, h4]
  exact ⟨rfl, by decide, by decide⟩

/-- Claim C6 witness: the concrete scenario transaction. -/
theorem matchRules_deny_scenario_witness :
    (matchRules txApprove denyHalfRules).ok = false
    ∧ "denied:0x095ea7b3" ∈ (matchRules txApprove denyHalfRules).reason
    ∧ "value<0.5" ∉ (matchRules txApprove denyHalfRules).reason :=
  matchRules_deny_scenario txApprove "0x095ea7b300" rfl rfl (by decide)

/-- Claim C7: with the same rules, any transaction of value `10 ^ 17` wei
and data `"0x"` is rejected with reasons exactly `["value<0.5"]`; the
selector defaults to the sentinel, which is not denied. -/
theorem matchRules_value_scenario (tx : Tx)
    (hv : tx.value = some 100000000000000000)
    (hd : tx.data = some "0x") :
    matchRules tx denyHalfRules = { ok := false, reason := ["value<0.5"] }
    ∧ selectorOf "0x" = "0x00000000"
    ∧ "0x00000000" ∉ (["0x095ea7b3"] : List String) := by
  have h1 : chkMinEth tx denyHalfRules = some "value<0.5" := by
    simp only [chkMinEth, denyHalfRules, hv]; decide
  have h2 : chkAllow tx denyHalfRules = none := rfl
  have h3 : chkDeny tx denyHalfRules = none := by
    simp only [chkDeny, denyHalfRules, hd]; decide
  have h4 : chkWatch tx denyHalfRules = none := rfl
  refine ⟨?_, by decide, by decide⟩
  have hr : (matchRules tx denyHalfRules).reason = ["value<0.5"] := by
    rw [matchRules_reason, h1, h2, h3, h4]; rfl
  have ho : (matchRules tx denyHalfRules).ok = false := by
    rw [matchRules_ok, hr]; rfl
  calc matchRules tx denyHalfRules
      = { ok := (matchRules tx denyHalfRules).ok,
          reason := (matchRules tx denyHalfRules).reason } := rfl
    _ = { ok := false, reason := ["value<0.5"] } := by rw [ho, hr]

/-- Claim C7 witness: the concrete scenario transaction. -/
theorem matchRules_value_scenario_witness :
    matchRules txSmall denyHalfRules = { ok := false, reason := ["value<0.5"] }
    ∧ selectorOf "0x" = "0x00000000"
    ∧ "0x00000000" ∉ (["0x095ea7b3"] : List String) :=
  matchRules_value_scenario txSmall rfl rfl

/-- Claim C8: with rules `{watchRecipients: ["0xaaa"]}`, any transaction
whose recipient is `"0xBBB"` is rejected with reasons exactly
`["!watched:to"]`; the recipient is lowercased to `"0xbbb"` before the
membership test and is not in the watch set. -/
theorem matchRules_watch_scenario (tx : Tx)
    (hto : tx.«to» = some "0xBBB") :
    matchRules tx watchAaaRules = { ok := false, reason := ["!watched:to"] }
    ∧ strLower "0xBBB" = "0xbbb"
    ∧ "0xbbb" ∉ (["0xaaa"] : List String) := by
  have h1 : chkMinEth tx watchAaaRules = none := rfl
  have h2 : chkAllow tx watchAaaRules = none := rfl
  have h3 : chkDeny tx watchAaaRules = none := rfl
  have h4 : chkWatch tx watchAaaRules = some "!watched:to" := by
    simp only [chkWatch, watchAaaRules, hto]; decide
  refine ⟨?_, by decide, by decide⟩
  have hr : (matchRules tx watchAaaRules).reason = ["!watched:to"] := by
    rw [matchRules_reason, h1, h2, h3, h4]; rfl
  have ho : (matchRules tx watchAaaRules).ok = false := by
    rw [matchRules_ok, hr]; rfl
  calc matchRules tx watchAaaRules
      = { ok := (matchRules tx watchAaaRules).ok,
          reason := (matchRules tx watchAaaRules).reason } := rfl
    _ = { ok := false, reason := ["!watched:to"] } := by rw [ho, hr]

/-- Claim C8 witness: the concrete scenario transaction. -/
theorem matchRules_watch_scenario_witness :
    matchRules txToBBB watchAaaRules = { ok := false, reason := ["!watched:to"] }
    ∧ strLower "0xBBB" = "0xbbb"
    ∧ "0xbbb" ∉ (["0xaaa"] : List String) :=
  matchRules_watch_scenario txToBBB rfl

/-- Claim C10: when the allow list is non-empty and does not contain the
sentinel `0x00000000`, every transaction whose data is absent, empty, or
shorter than 10 characters is rejected, with `!allowed:0x00000000` among
its reasons. -/
theorem matchRules_allow_rejects_transfers (rules : Rule) (l : List String)
    (tx : Tx)
    (ha : rules.allowSelectors = some l) (hne : l ≠ [])
    (hs : "0x00000000" ∉ l)
    (hd : tx.data = none ∨ ∃ d, tx.data = some d ∧ d.length < 10) :
    "!allowed:0x00000000" ∈ (matchRules tx rules).reason
    ∧ (matchRules tx rules).ok = false := by
  have hsel : selectorOf (tx.data.getD "0x") = "0x00000000" := by
    rcases hd with hd | ⟨d, hd, hdl⟩
    · rw [hd]; decide
    · rw [hd, Option.getD_some, selectorOf, if_pos (Or.inr hdl)]
  have h2 : chkAllow tx rules = some "!allowed:0x00000000" := by
    simp only [chkAllow, ha, hsel]
    rw [if_pos ⟨hne, hs⟩]; rfl
  have hmem : "!allowed:0x00000000" ∈ (matchRules tx rules).reason := by
    rw [matchRules_reason, h2]
    simp
  refine ⟨hmem, ?_⟩
  rw [matchRules_ok]
  have : (matchRules tx rules).reason ≠ [] := List.ne_nil_of_mem hmem
  simpa [List.length_eq_zero] using this

/-- Claim C10 witness: an allow list `["0xa9059cbb"]` rejects a concrete
transaction carrying no call data. -/
theorem matchRules_allow_rejects_transfers_witness :
    "!allowed:0x00000000"
        ∈ (matchRules txPlain
            { minEth := none, allowSelectors := some ["0xa9059cbb"],
              denySelectors := none, watchRecipients := none }).reason
    ∧ (matchRules txPlain
        { minEth := none, allowSelectors := some ["0xa9059cbb"],
          denySelectors := none, watchRecipients := none }).ok = false :=
  matchRules_allow_rejects_transfers _ _ txPlain rfl (by decide) (by decide)
    (Or.inl rfl)

/-- Claim C3 counterexample: the emitted alert object has no field named
`timestamp`; the whole-seconds timestamp is stored under the key `ts`
(source line 68). -/
theorem alert_no_timestamp_key :
    "timestamp" ∉ alertKeys ∧ "ts" ∈ alertKeys := by decide

/-- Claim C3 (amended: the timestamp field is named `ts`): every emitted
alert record has exactly the fields `type` (equal to `"mempool_alert"`),
`hash`, `from` (lowercased), `to` (lowercased, or the empty string when
the recipient is absent), `eth`, `selector`, `nonce` and `ts` (whole
seconds since epoch). -/
theorem emitAlert_fields (tx : Tx) (rules : Rule) (nowMs : Nat) (a : Alert)
    (h : emitAlert tx rules nowMs = some a) :
    alertKeys = ["type", "hash", "from", "to", "eth", "selector", "nonce", "ts"]
    ∧ a.type = "mempool_alert"
    ∧ a.hash = tx.hash
    ∧ a.«from» = strLower (tx.«from».getD "")
    ∧ a.«to» = strLower (tx.«to».getD "")
    ∧ (tx.«to» = none → a.«to» = "")
    ∧ a.eth = weiToEth (tx.value.getD 0)
    ∧ a.selector = selectorOf (tx.data.getD "0x")
    ∧ a.nonce = tx.nonce
    ∧ a.ts = nowMs / 1000 := by
  have hb : a = buildAlert tx nowMs := by
    rw [emitAlert] at h
    split at h
    · exact (Option.some.injEq _ _ ▸ h).symm
    · exact absurd h (by simp)
  subst hb
  refine ⟨rfl, rfl, rfl, rfl, rfl, ?_, rfl, rfl, rfl, rfl⟩
  intro h0
  show strLower (tx.«to».getD "") = ""
  rw [h0]; rfl

/-- Claim C3 witness: a concrete accepted transaction with no recipient;
its alert's `to` field is the empty string and `ts` is whole seconds. -/
theorem emitAlert_fields_witness :
    (buildAlert txPlain 1700000000123).«to» = ""
    ∧ (buildAlert txPlain 1700000000123).ts = 1700000000 :=
  ⟨(emitAlert_fields txPlain emptyRules 1700000000123
      (buildAlert txPlain 1700000000123) rfl).2.2.2.2.2.1 rfl,
   ((emitAlert_fields txPlain emptyRules 1700000000123
      (buildAlert txPlain 1700000000123) rfl).2.2.2.2.2.2.2.2.2).trans rfl⟩

lemma B64.le_inf (x : B64) : x ≤ .inf := by cases x <;> trivial

lemma roundIntNE_ge_floor (x : ℚ) : ⌊x⌋ ≤ roundIntNE x := by
  unfold roundIntNE; split_ifs <;> omega

lemma roundIntNE_le_floor_add_one (x : ℚ) : roundIntNE x ≤ ⌊x⌋ + 1 := by
  unfold roundIntNE; split_ifs <;> omega

lemma roundIntNE_intCast (n : ℤ) : roundIntNE (n : ℚ) = n := by
  unfold roundIntNE
  rw [Int.fract_intCast, Int.floor_intCast]
  norm_num

lemma roundIntNE_mono {x y : ℚ} (h : x ≤ y) : roundIntNE x ≤ roundIntNE y := by
  have hf : ⌊x⌋ ≤ ⌊y⌋ := Int.floor_le_floor h
  rcases lt_or_eq_of_le hf with hlt | heq
  · have h1 := roundIntNE_le_floor_add_one x
    have h2 := roundIntNE_ge_floor y
    omega
  · have hfr : Int.fract x ≤ Int.fract y := by
      rw [← Int.self_sub_floor, ← Int.self_sub_floor, heq]
      linarith
    unfold roundIntNE
    rw [heq]
    split_ifs <;> first | omega | linarith

lemma elog_spec {q : ℚ} (hq : 0 < q) :
    (2 : ℚ) ^ elog q ≤ q ∧ q < (2 : ℚ) ^ (elog q + 1) := by
  have hnum : 0 < q.num := Rat.num_pos.mpr hq
  set N := q.num.toNat with hNdef
  set D := q.den with hDdef
  have hN0 : 0 < N := by omega
  have hD0 : 0 < D := q.pos
  have hcast : (N : ℚ) = (q.num : ℚ) := by
    have h1 : (N : ℤ) = q.num := Int.toNat_of_nonneg hnum.le
    exact_mod_cast congrArg (fun z : ℤ => (z : ℚ)) h1
  have hqeq : q = (N : ℚ) / (D : ℚ) := by
    rw [hcast, hDdef, Rat.num_div_den]
  set a := Nat.log2 N with hadef
  set b := Nat.log2 D with hbdef
  have qa1 : (2 : ℚ) ^ a ≤ (N : ℚ) := by exact_mod_cast Nat.log2_self_le hN0.ne'
  have qa2 : (N : ℚ) < 2 ^ (a + 1) := by exact_mod_cast Nat.lt_log2_self
  have qb1 : (2 : ℚ) ^ b ≤ (D : ℚ) := by exact_mod_cast Nat.log2_self_le hD0.ne'
  have qb2 : (D : ℚ) < 2 ^ (b + 1) := by exact_mod_cast Nat.lt_log2_self
  have hDq : (0 : ℚ) < D := by exact_mod_cast hD0
  have helog : elog q = if D * 2 ^ a ≤ N * 2 ^ b then (a : ℤ) - b else (a : ℤ) - b - 1 :=
    rfl
  rw [helog]
  split_ifs with hc
  · constructor
    · rw [hqeq, zpow_sub₀ (two_ne_zero), zpow_natCast, zpow_natCast]
      rw [div_le_div_iff₀ (by positivity) hDq, mul_comm]
      exact_mod_cast hc
    · have he : (a : ℤ) - b + 1 = ((a + 1 : ℕ) : ℤ) - (b : ℤ) := by push_cast; ring
      rw [he, hqeq, zpow_sub₀ two_ne_zero, zpow_natCast, zpow_natCast]
      rw [div_lt_div_iff₀ hDq (by positivity)]
      have h1 : (N : ℚ) * 2 ^ b < 2 ^ (a + 1) * 2 ^ b :=
        mul_lt_mul_of_pos_right qa2 (by positivity)
      have h2 : (2 : ℚ) ^ (a + 1) * 2 ^ b ≤ 2 ^ (a + 1) * D :=
        mul_le_mul_of_nonneg_left qb1 (by positivity)
      linarith
  · constructor
    · have he : (a : ℤ) - b - 1 = (a : ℤ) - ((b + 1 : ℕ) : ℤ) := by push_cast; ring
      rw [he, hqeq, zpow_sub₀ two_ne_zero, zpow_natCast, zpow_natCast]
      rw [div_le_div_iff₀ (by positivity) hDq]
      have h1 : (2 : ℚ) ^ a * D ≤ 2 ^ a * 2 ^ (b + 1) :=
        mul_le_mul_of_nonneg_left qb2.le (by positivity)
      have h2 : (2 : ℚ) ^ a * 2 ^ (b + 1) ≤ N * 2 ^ (b + 1) :=
        mul_le_mul_of_nonneg_right qa1 (by positivity)
      linarith
    · have he : (a : ℤ) - b - 1 + 1 = (a : ℤ) - b := by ring
      rw [he, hqeq, zpow_sub₀ two_ne_zero, zpow_natCast, zpow_natCast]
      rw [div_lt_div_iff₀ hDq (by positivity), mul_comm ((2 : ℚ) ^ a)]
      push_neg at hc
      exact_mod_cast hc

lemma elog_mono {q1 q2 : ℚ} (h1 : 0 < q1) (h : q1 ≤ q2) : elog q1 ≤ elog q2 := by
  by_contra hlt
  push_neg at hlt
  have h2 : 0 < q2 := lt_of_lt_of_le h1 h
  have s1 := elog_spec h1
  have s2 := elog_spec h2
  have : q2 < q1 :=
    lt_of_lt_of_le s2.2 (le_trans (zpow_le_zpow_right₀ (by norm_num) (by omega)) s1.1)
  linarith

lemma elog_unique {q : ℚ} {e : ℤ} (h0 : 0 < q)
    (hl : (2 : ℚ) ^ e ≤ q) (hu : q < 2 ^ (e + 1)) : elog q = e := by
  have s := elog_spec h0
  by_contra hne
  rcases lt_or_gt_of_ne hne with hlt | hgt
  · have : q < q :=
      lt_of_lt_of_le s.2 (le_trans (zpow_le_zpow_right₀ (by norm_num) (by omega)) hl)
    exact absurd this (lt_irrefl q)
  · have : q < q :=
      lt_of_lt_of_le hu (le_trans (zpow_le_zpow_right₀ (by norm_num) (by omega)) s.1)
    exact absurd this (lt_irrefl q)

lemma quantum_sub {q : ℚ} (h : q < minNormal) : quantum q = -1074 := by
  rw [quantum, if_pos h]

lemma quantum_norm {q : ℚ} (h : ¬ q < minNormal) : quantum q = elog q - 52 := by
  rw [quantum, if_neg h]

lemma roundFin_le_of_le {q : ℚ} {n : ℤ} (h : q / (2 : ℚ) ^ quantum q ≤ (n : ℚ)) :
    roundFin q ≤ (n : ℚ) * (2 : ℚ) ^ quantum q := by
  have hm := roundIntNE_mono h
  rw [roundIntNE_intCast] at hm
  exact mul_le_mul_of_nonneg_right (by exact_mod_cast hm)
    (zpow_pos (by norm_num) _).le

lemma le_roundFin_of_le {q : ℚ} {n : ℤ} (h : (n : ℚ) ≤ q / (2 : ℚ) ^ quantum q) :
    (n : ℚ) * (2 : ℚ) ^ quantum q ≤ roundFin q := by
  have hm := roundIntNE_mono h
  rw [roundIntNE_intCast] at hm
  exact mul_le_mul_of_nonneg_right (by exact_mod_cast hm)
    (zpow_pos (by norm_num) _).le

lemma le_roundFin_norm {q : ℚ} (h0 : 0 < q) (ht : minNormal ≤ q) :
    (2 : ℚ) ^ elog q ≤ roundFin q := by
  have hk : quantum q = elog q - 52 := quantum_norm (not_lt.mpr ht)
  have key : ((2 ^ 52 : ℤ) : ℚ) * (2 : ℚ) ^ quantum q = (2 : ℚ) ^ elog q := by
    rw [hk, show ((2 ^ 52 : ℤ) : ℚ) = (2 : ℚ) ^ (52 : ℤ) by norm_num,
      ← zpow_add₀ two_ne_zero]
    congr 1
    ring
  have hq52 : ((2 ^ 52 : ℤ) : ℚ) ≤ q / (2 : ℚ) ^ quantum q := by
    rw [le_div_iff₀ (zpow_pos (by norm_num) _)]
    calc ((2 ^ 52 : ℤ) : ℚ) * (2 : ℚ) ^ quantum q = (2 : ℚ) ^ elog q := key
      _ ≤ q := (elog_spec h0).1
  calc (2 : ℚ) ^ elog q = ((2 ^ 52 : ℤ) : ℚ) * (2 : ℚ) ^ quantum q := key.symm
    _ ≤ roundFin q := le_roundFin_of_le hq52

lemma roundFin_le_norm {q : ℚ} (h0 : 0 < q) (ht : minNormal ≤ q) :
    roundFin q ≤ (2 : ℚ) ^ (elog q + 1) := by
  have hk : quantum q = elog q - 52 := quantum_norm (not_lt.mpr ht)
  have key : ((2 ^ 53 : ℤ) : ℚ) * (2 : ℚ) ^ quantum q = (2 : ℚ) ^ (elog q + 1) := by
    rw [hk, show ((2 ^ 53 : ℤ) : ℚ) = (2 : ℚ) ^ (53 : ℤ) by norm_num,
      ← zpow_add₀ two_ne_zero]
    congr 1
    ring
  have hq53 : q / (2 : ℚ) ^ quantum q ≤ ((2 ^ 53 : ℤ) : ℚ) := by
    rw [div_le_iff₀ (zpow_pos (by norm_num) _)]
    calc q ≤ 2 ^ (elog q + 1) := (elog_spec h0).2.le
      _ = ((2 ^ 53 : ℤ) : ℚ) * (2 : ℚ) ^ quantum q := key.symm
  calc roundFin q ≤ ((2 ^ 53 : ℤ) : ℚ) * (2 : ℚ) ^ quantum q := roundFin_le_of_le hq53
    _ = (2 : ℚ) ^ (elog q + 1) := key

lemma roundFin_le_sub {q : ℚ} (ht : q < minNormal) : roundFin q ≤ minNormal := by
  have hk : quantum q = -1074 := quantum_sub ht
  have key : ((2 ^ 52 : ℤ) : ℚ) * (2 : ℚ) ^ quantum q = minNormal := by
    rw [hk, minNormal, show ((2 ^ 52 : ℤ) : ℚ) = (2 : ℚ) ^ (52 : ℤ) by norm_num,
      ← zpow_add₀ two_ne_zero]
    congr 1
  have hq52 : q / (2 : ℚ) ^ quantum q ≤ ((2 ^ 52 : ℤ) : ℚ) := by
    rw [div_le_iff₀ (zpow_pos (by norm_num) _)]
    calc q ≤ minNormal := ht.le
      _ = ((2 ^ 52 : ℤ) : ℚ) * (2 : ℚ) ^ quantum q := key.symm
  calc roundFin q ≤ ((2 ^ 52 : ℤ) : ℚ) * (2 : ℚ) ^ quantum q := roundFin_le_of_le hq52
    _ = minNormal := key

lemma elog_ge_neg1022 {q : ℚ} (h : minNormal ≤ q) : (-1022 : ℤ) ≤ elog q := by
  have h0t : (0 : ℚ) < minNormal := zpow_pos (by norm_num) _
  have ht : elog minNormal = -1022 := by
    apply elog_unique h0t
    · rw [minNormal]
    · rw [minNormal]
      exact zpow_lt_zpow_right₀ (by norm_num) (by omega)
  calc (-1022 : ℤ) = elog minNormal := ht.symm
    _ ≤ elog q := elog_mono h0t h

lemma roundFin_mono {q1 q2 : ℚ} (h : q1 ≤ q2) : roundFin q1 ≤ roundFin q2 := by
  have hpos : (0 : ℚ) < minNormal := zpow_pos (by norm_num) _
  rcases lt_or_le q2 minNormal with hq2 | hq2
  · have hq1 : q1 < minNormal := lt_of_le_of_lt h hq2
    have hk1 : quantum q1 = -1074 := quantum_sub hq1
    have hk2 : quantum q2 = -1074 := quantum_sub hq2
    unfold roundFin
    rw [hk1, hk2]
    have hdiv : q1 / (2 : ℚ) ^ (-1074 : ℤ) ≤ q2 / (2 : ℚ) ^ (-1074 : ℤ) := by
      rw [div_eq_mul_inv, div_eq_mul_inv]
      exact mul_le_mul_of_nonneg_right h
        (inv_nonneg.mpr (zpow_pos (a := (2 : ℚ)) (by norm_num) _).le)
    exact mul_le_mul_of_nonneg_right (by exact_mod_cast roundIntNE_mono hdiv)
      (zpow_pos (by norm_num) _).le
  · rcases lt_or_le q1 minNormal with hq1 | hq1
    · have h02 : 0 < q2 := lt_of_lt_of_le hpos hq2
      calc roundFin q1 ≤ minNormal := roundFin_le_sub hq1
        _ ≤ (2 : ℚ) ^ elog q2 := by
            rw [minNormal]
            exact zpow_le_zpow_right₀ (by norm_num) (elog_ge_neg1022 hq2)
        _ ≤ roundFin q2 := le_roundFin_norm h02 hq2
    · have h01 : 0 < q1 := lt_of_lt_of_le hpos hq1
      have h02 : 0 < q2 := lt_of_lt_of_le h01 h
      have he : elog q1 ≤ elog q2 := elog_mono h01 h
      rcases eq_or_lt_of_le he with heq | hlt
      · have hk : quantum q1 = quantum q2 := by
          rw [quantum_norm (not_lt.mpr hq1), quantum_norm (not_lt.mpr hq2), heq]
        unfold roundFin
        rw [hk]
        have hdiv : q1 / (2 : ℚ) ^ quantum q2 ≤ q2 / (2 : ℚ) ^ quantum q2 := by
          rw [div_eq_mul_inv, div_eq_mul_inv]
          exact mul_le_mul_of_nonneg_right h
            (inv_nonneg.mpr (zpow_pos (a := (2 : ℚ)) (by norm_num) _).le)
        exact mul_le_mul_of_nonneg_right (by exact_mod_cast roundIntNE_mono hdiv)
          (zpow_pos (by norm_num) _).le
      · calc roundFin q1 ≤ (2 : ℚ) ^ (elog q1 + 1) := roundFin_le_norm h01 hq1
          _ ≤ (2 : ℚ) ^ elog q2 := zpow_le_zpow_right₀ (by norm_num) (by omega)
          _ ≤ roundFin q2 := le_roundFin_norm h02 hq2

lemma roundB64_mono {q1 q2 : ℚ} (h : q1 ≤ q2) : roundB64 q1 ≤ roundB64 q2 := by
  unfold roundB64
  split_ifs with h1 h2 h2
  · trivial
  · exact absurd (le_trans h1 h) h2
  · exact B64.le_inf _
  · exact roundFin_mono h

lemma b64Div_mono {x y : B64} {c : ℚ} (hc : 0 < c) (h : x ≤ y) :
    b64Div x c ≤ b64Div y c := by
  cases x with
  | inf =>
    cases y with
    | inf => trivial
    | fin vb => exact ((h : False)).elim
  | fin va =>
    cases y with
    | inf => exact B64.le_inf _
    | fin vb =>
      have hle : va ≤ vb := h
      show roundB64 (va / c) ≤ roundB64 (vb / c)
      apply roundB64_mono
      rw [div_eq_mul_inv, div_eq_mul_inv]
      exact mul_le_mul_of_nonneg_right hle (inv_nonneg.mpr hc.le)

lemma roundB64_e18 : roundB64 ((10 : ℚ) ^ 18) = .fin ((10 : ℚ) ^ 18) := by
  have h0 : (0 : ℚ) < 10 ^ 18 := by norm_num
  have helog : elog ((10 : ℚ) ^ 18) = 59 := by
    apply elog_unique h0
    · rw [show (59 : ℤ) = ((59 : ℕ) : ℤ) from rfl, zpow_natCast]
      norm_num
    · rw [show (59 : ℤ) + 1 = ((60 : ℕ) : ℤ) from rfl, zpow_natCast]
      norm_num
  have hnlt : ¬ ((10 : ℚ) ^ 18 < minNormal) := by
    rw [minNormal, not_lt]
    calc (2 : ℚ) ^ (-1022 : ℤ) ≤ 1 := zpow_le_one_of_nonpos₀ (by norm_num) (by norm_num)
      _ ≤ 10 ^ 18 := by norm_num
  have hk : quantum ((10 : ℚ) ^ 18) = 7 := by
    rw [quantum_norm hnlt, helog]
    decide
  have hovf : ¬ (ovfThreshold ≤ (10 : ℚ) ^ 18) := by
    rw [ovfThreshold, not_le]
    norm_num
  rw [roundB64, if_neg hovf]
  congr 1
  rw [roundFin, hk]
  have hdiv : (10 : ℚ) ^ 18 / (2 : ℚ) ^ (7 : ℤ) = ((7812500000000000 : ℤ) : ℚ) := by
    rw [show (7 : ℤ) = ((7 : ℕ) : ℤ) from rfl, zpow_natCast]
    norm_num
  rw [hdiv, roundIntNE_intCast]
  rw [show (7 : ℤ) = ((7 : ℕ) : ℤ) from rfl, zpow_natCast]
  norm_num

/-- Claim C9: amount conversion is monotonic: for all non-negative
integer amounts `a < b`, `conversion a ≤ conversion b`, where
`conversion` computes `amount / 10 ^ 18` in standard binary floating
point — modelled by `weiToEthB64` with full IEEE-754 binary64 semantics
(round to nearest, ties to even, subnormals, overflow to `+∞`). -/
theorem weiToEthB64_mono (a b : Nat) (hab : a < b) :
    weiToEthB64 a ≤ weiToEthB64 b := by
  have hq : (a : ℚ) ≤ (b : ℚ) := by exact_mod_cast hab.le
  exact b64Div_mono (by positivity) (roundB64_mono hq)

/-- Claim C9 witness: the conversion at the two scenario amounts. -/
theorem weiToEthB64_mono_witness :
    weiToEthB64 100000000000000000 ≤ weiToEthB64 2000000000000000000 :=
  weiToEthB64_mono 100000000000000000 2000000000000000000 (by decide)
